import Mathlib

/-!
Verification of the macro-liquidity analytical core (signal engine, judgment
engine, composite scorer, forward analyzer) against its specification.

The Python source is shallowly embedded: a panel is a date-indexed table of
named columns whose cells are `Option ℚ` (a float observation or NaN /
"no observation"); pandas rolling-window statistics become explicit
`take`/`drop` slices; fallible lookups return `Option`.  Sample statistics
follow pandas semantics (mean over the valid cells, standard deviation with
one delta degree of freedom).  Where the source takes a square root or the
normal CDF the embedding moves to `ℝ` (those definitions are noncomputable);
all branching conditions remain exact rational comparisons.  Display-only
decimal formatting of numbers inside explanation strings is abstracted by
`toString`.
-/

/-- A calendar date of the panel index (year, month, day). -/
structure MDate where
  y : ℕ
  m : ℕ
  d : ℕ
deriving DecidableEq, Repr

/-- A cell of the panel: a float observation or NaN / missing. -/
abbrev Cell := Option ℚ

/-- One named time series of the panel, aligned on the panel's row index. -/
abbrev Column := List Cell

/-- The daily panel: an ordered date index and named columns.
Owned by the external cleaning stage; the core only reads it.  The signal
table produced by the signal engine is represented by the same shape. -/
structure Panel where
  dates : List MDate
  cols : List (String × Column)

/-- Column lookup by name, `none` when the panel has no such column
(`panel[col]` guarded by `col in panel.columns`, or `frame.get(col)`). -/
def Panel.get? (p : Panel) (name : String) : Option Column :=
  (p.cols.find? (fun c => c.1 == name)).map (fun c => c.2)

/-- Membership test `name in panel.columns`. -/
def Panel.hasCol (p : Panel) (name : String) : Bool :=
  (p.get? name).isSome

/-- `len(panel)`: the number of rows. -/
def Panel.len (p : Panel) : ℕ :=
  p.dates.length

/-- The valid (non-NaN) observations of a column, in order (`series.dropna()`). -/
def valids (c : Column) : List ℚ :=
  c.filterMap id

/-- `series.notna().any() ... series.dropna().iloc[-1]`: the most recent valid
observation of an optional column, `none` when the column is absent or has no
valid cell (`JudgmentEngine._last_valid`). -/
def lastValid : Option Column → Option ℚ
  | none => none
  | some c => (valids c).getLast?

/-- Mean of a list of rationals (`Series.mean()`); junk value 0 on `[]`,
which every call site guards against. -/
def qmean (l : List ℚ) : ℚ :=
  l.sum / l.length

/-- Sample variance with one delta degree of freedom (the square of pandas
`Series.std()`); junk value 0 below two elements, which call sites guard. -/
def qvar (l : List ℚ) : ℚ :=
  ((l.map (fun x => (x - qmean l) ^ 2)).sum) / ((l.length - 1 : ℕ) : ℚ)

/-- Sample standard deviation over `ℝ` (`Series.std()`). -/
noncomputable def qstd (l : List ℚ) : ℝ :=
  Real.sqrt ((qvar l : ℚ) : ℝ)

/-- The trailing window of width `W` ending at row `t` inclusive: positions
`max 0 (t+1-W) .. t` of the column (pandas `Series.rolling(W)` at row `t`). -/
def rollWindow (W t : ℕ) (c : Column) : Column :=
  (c.take (t + 1)).drop (t + 1 - W)

/-- The valid observations inside the trailing window (what pandas rolling
statistics aggregate over, and what `min_periods` counts). -/
def winValids (W t : ℕ) (c : Column) : List ℚ :=
  valids (rollWindow W t c)

/-!
Signal Engine (`src/signals.py`, `SignalEngine.compute`).

`zscoreAt` embeds
  `rolling_mean = series.rolling(60, min_periods=20).mean()`
  `rolling_std  = series.rolling(60, min_periods=20).std()`
  `zscore = (series - rolling_mean) / rolling_std.replace(0, np.nan)`
at one row `t`: the value is NaN (here `none`) when the window holds fewer
than 20 valid cells, when the rolling standard deviation is zero (replaced by
NaN before the division), or when the cell at `t` is itself NaN.

`pctlAt` embeds
  `series.rolling(252, min_periods=60).apply(lambda x: pd.Series(x).rank(pct=True).iloc[-1])`
at one row `t`: NaN below 60 valid cells or when the cell at `t` is NaN;
otherwise the pandas average rank of the value at `t` among the window's
valid cells — the mean of its minimum rank `(#strictly-below) + 1` and its
maximum rank `#weakly-below` — divided by the number of valid cells.
(The window-change and label columns of `compute` are not embedded: no claim
concerns them.)
-/

/-- Rolling z-score of column `c` at row `t`. -/
noncomputable def zscoreAt (c : Column) (t : ℕ) : Option ℝ :=
  let v := winValids 60 t c
  if v.length < 20 then none
  else if qvar v = 0 then none
  else
    match c.getD t none with
    | none => none
    | some x => some (((x : ℝ) - ((qmean v : ℚ) : ℝ)) / Real.sqrt ((qvar v : ℚ) : ℝ))

/-- Rolling percentile rank of column `c` at row `t`. -/
def pctlAt (c : Column) (t : ℕ) : Option ℚ :=
  let v := winValids 252 t c
  if v.length < 60 then none
  else
    match c.getD t none with
    | none => none
    | some x =>
      let rmin : ℚ := v.countP (fun y => decide (y < x)) + 1
      let rmax : ℚ := v.countP (fun y => decide (y ≤ x))
      some (((rmin + rmax) / 2) / (v.length : ℚ))

/-- The full z-score column of the signal table for one indicator. -/
noncomputable def zscoreColumn (c : Column) : List (Option ℝ) :=
  (List.range c.length).map (zscoreAt c)

/-- The full percentile column of the signal table for one indicator. -/
def pctlColumn (c : Column) : List (Option ℚ) :=
  (List.range c.length).map (pctlAt c)

/-- Splitting a weak comparison count into its strict and tied parts. -/
theorem countP_le_split (l : List ℚ) (x : ℚ) :
    l.countP (fun y => decide (y ≤ x)) =
      l.countP (fun y => decide (y < x)) + l.countP (fun y => decide (y = x)) := by
  induction l with
  | nil => simp
  | cons a tl ih =>
    rcases lt_trichotomy a x with h | h | h
    · simp [List.countP_cons, ih, le_of_lt h, h, ne_of_lt h]
      omega
    · simp [List.countP_cons, ih, le_of_eq h, h]
      omega
    · simp [List.countP_cons, ih, not_le.2 h, not_lt.2 (le_of_lt h), ne_of_gt h]

/-- The sample variance is nonnegative. -/
theorem qvar_nonneg (l : List ℚ) : 0 ≤ qvar l := by
  unfold qvar
  apply div_nonneg
  · apply List.sum_nonneg
    intro x hx
    rcases List.mem_map.1 hx with ⟨y, _, rfl⟩
    positivity
  · positivity

/-- C8: the rolling z-score is a total function into `Option`: it is `none`
(pandas NaN) whenever the trailing 60-day window has fewer than 20 valid
samples or its rolling standard deviation is zero — never an infinity, a
NaN-poisoned number, or an exception — and whenever it does return a value
`z`, the divisor was strictly positive and `z` solves the defining equation
`z * std = value - mean`. -/
theorem zscore_safe (c : Column) (t : ℕ) :
    ((winValids 60 t c).length < 20 ∨ qvar (winValids 60 t c) = 0 → zscoreAt c t = none)
    ∧ (∀ z : ℝ, zscoreAt c t = some z →
        20 ≤ (winValids 60 t c).length ∧
        0 < Real.sqrt ((qvar (winValids 60 t c) : ℚ) : ℝ) ∧
        ∃ x : ℚ, c.getD t none = some x ∧
          z * Real.sqrt ((qvar (winValids 60 t c) : ℚ) : ℝ)
            = (x : ℝ) - ((qmean (winValids 60 t c) : ℚ) : ℝ)) := by
  constructor
  · intro h
    rcases h with h | h
    · simp [zscoreAt, h]
    · simp [zscoreAt, h]
  · intro z hz
    unfold zscoreAt at hz
    by_cases h1 : (winValids 60 t c).length < 20
    · simp [h1] at hz
    · by_cases h2 : qvar (winValids 60 t c) = 0
      · simp [h1, h2] at hz
      · simp only [if_neg h1, if_neg h2] at hz
        cases hx : c.getD t none with
        | none => rw [hx] at hz; exact absurd hz (by simp)
        | some x =>
          rw [hx] at hz
          have hvpos : 0 < qvar (winValids 60 t c) :=
            lt_of_le_of_ne (qvar_nonneg _) (Ne.symm h2)
          have hs : 0 < Real.sqrt ((qvar (winValids 60 t c) : ℚ) : ℝ) :=
            Real.sqrt_pos.2 (by exact_mod_cast hvpos)
          refine ⟨by omega, hs, x, rfl, ?_⟩
          rw [← Option.some_inj.1 hz]
          field_simp

/-- A short column used to exercise the insufficient-sample branch. -/
def c8col : Column := [some 1, some 2, some 3]

/-- Witness for C8: on a three-observation column the 60-day window holds
fewer than 20 valid samples, so the z-score is undefined. -/
theorem zscore_safe_witness : zscoreAt c8col 2 = none :=
  (zscore_safe c8col 2).1 (Or.inl (by decide))

/-- A 60-row column with pairwise distinct values 0, 1, ..., 59, meeting the
60-valid-sample minimum of the percentile window. -/
def c6col : Column := (List.range 60).map (fun i => some (i : ℚ))

/-- Concrete evaluation of the rolling percentile on `c6col` at its last row. -/
theorem c6col_pctl_eval : pctlAt c6col 59 = some 1 := by
  have hlen : (winValids 252 59 c6col).length = 60 := by decide
  have hx : c6col.getD 59 none = some 59 := by decide
  have hlt : (winValids 252 59 c6col).countP (fun y => decide (y < 59)) = 59 := by decide
  have hle : (winValids 252 59 c6col).countP (fun y => decide (y ≤ 59)) = 60 := by decide
  simp only [pctlAt]
  rw [hx]
  simp only [hlen, hlt, hle]
  norm_num

/-- C6 counterexample: on the 60 distinct values 0..59 the engine's rolling
percentile of the last row is 1 (its average rank 60 out of 60), while the
fraction of window values strictly below it is 59/60 — so the percentile is
not the strictly-less fraction the claim states. -/
theorem pctl_strict_fraction_cex :
    pctlAt c6col 59 = some 1 ∧
    ((winValids 252 59 c6col).countP (fun y => decide (y < 59)) : ℚ)
        / ((winValids 252 59 c6col).length : ℚ) = 59 / 60 ∧
    (1 : ℚ) ≠ 59 / 60 := by
  refine ⟨c6col_pctl_eval, ?_, by norm_num⟩
  have hlen : (winValids 252 59 c6col).length = 60 := by decide
  have hlt : (winValids 252 59 c6col).countP (fun y => decide (y < 59)) = 59 := by decide
  rw [hlen, hlt]
  norm_num

/-- C6 amended: at every row `t` holding a value and at least 60 valid samples
in the trailing 252-day window, the rolling percentile rank equals the pandas
average-rank fraction: the fraction of window values strictly below the
current value plus a tie correction `(ties + 1) / (2 * count)`, where `ties`
counts the window values equal to the current value (the current value
itself among them) — not the bare strictly-less fraction. -/
theorem pctl_rank_formula (c : Column) (t : ℕ) (p : ℚ)
    (h : pctlAt c t = some p) :
    ∃ x : ℚ, c.getD t none = some x ∧
      60 ≤ (winValids 252 t c).length ∧
      p = ((winValids 252 t c).countP (fun y => decide (y < x)) : ℚ)
            / ((winValids 252 t c).length : ℚ)
          + (((winValids 252 t c).countP (fun y => decide (y = x)) : ℚ) + 1)
            / (2 * ((winValids 252 t c).length : ℚ)) := by
  unfold pctlAt at h
  by_cases h1 : (winValids 252 t c).length < 60
  · simp [h1] at h
  · simp only [if_neg h1] at h
    cases hx : c.getD t none with
    | none => rw [hx] at h; exact absurd h (by simp)
    | some x =>
      rw [hx] at h
      refine ⟨x, rfl, by omega, ?_⟩
      rw [← Option.some_inj.1 h, countP_le_split]
      have hn : ((winValids 252 t c).length : ℚ) ≠ 0 :=
        Nat.cast_ne_zero.2 (by omega)
      push_cast
      field_simp
      ring

/-- Witness for the amended C6 at the concrete 60-row column: the percentile
1 decomposes as 59/60 strictly-below fraction plus the 1/120 tie term. -/
theorem pctl_rank_formula_witness :
    ∃ x : ℚ, c6col.getD 59 none = some x ∧
      60 ≤ (winValids 252 59 c6col).length ∧
      (1 : ℚ) = ((winValids 252 59 c6col).countP (fun y => decide (y < x)) : ℚ)
            / ((winValids 252 59 c6col).length : ℚ)
          + (((winValids 252 59 c6col).countP (fun y => decide (y = x)) : ℚ) + 1)
            / (2 * ((winValids 252 59 c6col).length : ℚ)) :=
  pctl_rank_formula c6col 59 1 c6col_pctl_eval

/-!
Judgment Engine (`src/judge.py`, `JudgmentEngine`).

Each dimension check mirrors its `_check_*` method; thresholds come from a
configuration record whose defaults are the `.get(..., default)` fallbacks of
the source (written with `mkRat` where the source writes a decimal float).
Display-only numeric rounding inside detail strings is abstracted by
`toString`; the `dimension_details` echo of the checks dict is omitted from
the judgment record (no claim reads it).
-/

/-- The thresholds the engine reads from `config["judgment"]`, with the
source's defaults (`-0.02` is `mkRat (-1) 50`). -/
structure JudgmentConfig where
  net_liq_weak_threshold_5d : ℚ := -50
  sofr_stress_threshold_5d : ℚ := 5
  vix_stress_threshold : ℚ := 25
  usdjpy_stress_threshold_5d : ℚ := -2
  carry_spread_narrow_threshold_5d : ℚ := -10
  hy_oas_widen_threshold_5d : ℚ := 15
  spx_weak_threshold_5d : ℚ := mkRat (-1) 50
  min_confirmations : ℕ := 2

/-- The defaults used when `config["judgment"]` supplies nothing. -/
def defaultJudgmentConfig : JudgmentConfig := {}

/-- `o is not None and o > thr` for an optional value. -/
def optGT (o : Option ℚ) (thr : ℚ) : Bool :=
  match o with
  | some c => decide (thr < c)
  | none => false

/-- `o is not None and o < thr` for an optional value. -/
def optLT (o : Option ℚ) (thr : ℚ) : Bool :=
  match o with
  | some c => decide (c < thr)
  | none => false

/-- Render an optional number the way an f-string renders a possibly-`None`
value (decimal formatting abstracted). -/
def optStr (o : Option ℚ) : String :=
  match o with
  | some c => toString c
  | none => "None"

/-- Result of `_check_net_liquidity`: display fields keep the raw (unrounded)
numbers. -/
structure NetLiqCheck where
  available : Bool := false
  weakening : Bool := false
  detail : String := ""
  level : Option ℚ := none
  chg_5d : Option ℚ := none
  chg_20d : Option ℚ := none

/-- Result of `_check_sofr` / `_check_move_proxy` / `_check_carry_chain` /
`_check_hy_oas`: the shared `available`/`stress`/`detail` triple plus the
optional display numbers each check stores. -/
structure DimCheck where
  available : Bool := false
  stress : Bool := false
  detail : String := ""
  level : Option ℚ := none
  zscore : Option ℚ := none
  chg : Option ℚ := none
  is_proxy : Bool := false

/-- Result of `_check_risk_assets`. -/
structure RiskCheck where
  available : Bool := false
  confirming_weakness : Bool := false
  detail : String := ""

/-- `_check_net_liquidity`. -/
def checkNetLiquidity (cfg : JudgmentConfig) (panel signal : Panel) : NetLiqCheck :=
  if ¬ panel.hasCol "net_liquidity" then { detail := "data missing" }
  else
    match lastValid (panel.get? "net_liquidity") with
    | none => { available := true, detail := "all NaN" }
    | some latest =>
      let chg5 := (lastValid (signal.get? "net_liquidity_chg_5d")).getD 0
      let chg20 := (lastValid (signal.get? "net_liquidity_chg_20d")).getD 0
      { available := true
        weakening := decide (chg5 < cfg.net_liq_weak_threshold_5d)
        level := some latest
        chg_5d := some chg5
        chg_20d := some chg20
        detail := "Level: " ++ toString latest ++ "B, 5d: " ++ toString chg5
          ++ "B, 20d: " ++ toString chg20 ++ "B" }

/-- `_check_sofr`: the configured threshold is in basis points and is divided
by 100 at use. -/
def checkSofr (cfg : JudgmentConfig) (panel signal : Panel) : DimCheck :=
  if ¬ panel.hasCol "sofr" then { detail := "data missing" }
  else
    let latest := lastValid (panel.get? "sofr")
    let chg5 := lastValid (signal.get? "sofr_chg_5d")
    match latest with
    | none => { available := true, detail := "all NaN" }
    | some l =>
      let threshold := cfg.sofr_stress_threshold_5d / 100
      { available := true
        level := some l
        chg := chg5
        stress := optGT chg5 threshold
        detail := "SOFR: " ++ toString l ++ "%, 5d chg: " ++ optStr chg5 ++ "bps" }

/-- `_check_move_proxy`: falls back to the `vix` column when `move_proxy` is
absent; stress when the level exceeds the threshold or the z-score read from
the signal table exceeds 1. -/
def checkMoveProxy (cfg : JudgmentConfig) (panel signal : Panel) : DimCheck :=
  let col := if panel.hasCol "move_proxy" then "move_proxy" else "vix"
  if ¬ panel.hasCol col then { detail := "data missing" }
  else
    match lastValid (panel.get? col) with
    | none => { available := true, detail := "all NaN" }
    | some latest =>
      let z := lastValid (signal.get? (col ++ "_zscore"))
      { available := true
        level := some latest
        zscore := z
        stress := decide (cfg.vix_stress_threshold < latest) || optGT z 1
        detail := col ++ ": " ++ toString latest ++ ", z-score: " ++ optStr z
        is_proxy := true }

/-- `_check_carry_chain`: stress when either sub-check (USDJPY 5-day change
below its threshold, or carry-spread 5-day change below its threshold)
fires. -/
def checkCarryChain (cfg : JudgmentConfig) (panel signal : Panel) : DimCheck :=
  let hasUsdjpy := panel.hasCol "usdjpy"
  let hasSpread := panel.hasCol "carry_spread_bps"
  if ¬ hasUsdjpy ∧ ¬ hasSpread then { detail := "data missing" }
  else
    let usdjpy := lastValid (panel.get? "usdjpy")
    let usdjpyChg := lastValid (signal.get? "usdjpy_chg_5d")
    let usdjpyStress := hasUsdjpy && optLT usdjpyChg cfg.usdjpy_stress_threshold_5d
    let spread := lastValid (panel.get? "carry_spread_bps")
    let spreadChg := lastValid (signal.get? "carry_spread_bps_chg_5d")
    let spreadStress := hasSpread && optLT spreadChg cfg.carry_spread_narrow_threshold_5d
    let sub1 : List String :=
      if hasUsdjpy then
        [(match usdjpy with
          | some v => if v ≠ 0 then "USDJPY: " ++ toString v else "USDJPY: N/A"
          | none => "USDJPY: N/A") ++ (if usdjpyStress then " [STRESS]" else "")]
      else []
    let sub2 : List String :=
      if hasSpread then
        [(match spread with
          | some v => if v ≠ 0 then "US2Y-JP2Y: " ++ toString v ++ "bps" else "Spread: N/A"
          | none => "Spread: N/A") ++ (if spreadStress then " [STRESS]" else "")]
      else []
    { available := true
      stress := usdjpyStress || spreadStress
      detail := String.intercalate " | " (sub1 ++ sub2) }

/-- `_check_hy_oas`: threshold in basis points, divided by 100 at use. -/
def checkHyOas (cfg : JudgmentConfig) (panel signal : Panel) : DimCheck :=
  if ¬ panel.hasCol "hy_oas" then { detail := "data missing" }
  else
    let latest := lastValid (panel.get? "hy_oas")
    let chg5 := lastValid (signal.get? "hy_oas_chg_5d")
    match latest with
    | none => { available := true, detail := "all NaN" }
    | some l =>
      let thresholdBps := cfg.hy_oas_widen_threshold_5d / 100
      { available := true
        level := some l
        chg := chg5
        stress := optGT chg5 thresholdBps
        detail := "HY OAS: " ++ toString l ++ "%, 5d: " ++ optStr chg5 ++ "bps" }

/-- `_check_risk_assets`: weakness is confirmed when the SPX 5-day percentage
return is present and below the threshold. -/
def checkRiskAssets (cfg : JudgmentConfig) (panel signal : Panel) : RiskCheck :=
  if ¬ panel.hasCol "spx" then { detail := "data missing" }
  else
    let spxPct := lastValid (signal.get? "spx_pct_5d")
    let btcPct := lastValid (signal.get? "btc_pct_5d")
    let parts : List String :=
      (match spxPct with
       | some v => ["SPX 5d: " ++ toString v ++ "%"]
       | none => []) ++
      (match btcPct with
       | some v => ["BTC 5d: " ++ toString v ++ "%"]
       | none => [])
    { available := true
      confirming_weakness := optLT spxPct cfg.spx_weak_threshold_5d
      detail := String.intercalate " | " parts }

/-- One indicator's entry of the data-quality report. -/
structure QualityInfo where
  status : String := "ok"
  stale_days : ℕ := 0

/-- `_check_staleness`: an indicator is stale when its status is missing or
degraded, or (otherwise) its trailing-stale-day count exceeds 3. -/
def checkStaleness (dq : List (String × QualityInfo)) : List String :=
  dq.filterMap (fun ki =>
    if ki.2.status = "missing" ∨ ki.2.status = "degraded" then some ki.1
    else if 3 < ki.2.stale_days then some ki.1 else none)

/-- The structured judgment `_apply_rules` returns (`dimension_details`
omitted; the `date` field is rendered without zero padding). -/
structure Judgment where
  date : String
  regime : String
  regime_cn : String
  confidence : String
  explanation : String
  net_liquidity_weakening : Bool
  stress_count : ℕ
  stress_dimensions : List String
  risk_asset_confirming : Bool
  data_stale : List String

/-- Render a panel date (zero padding of months and days abstracted). -/
def mdateStr (d : MDate) : String :=
  toString d.y ++ "-" ++ toString d.m ++ "-" ++ toString d.d

/-- `_apply_rules`: the four mandatory rules, in the source's priority order:
tightening, local disturbance, stable, then the staleness annotation. -/
def applyRules (cfg : JudgmentConfig) (netLiq : NetLiqCheck)
    (sofr moveProxy carryChain hyOas : DimCheck) (risk : RiskCheck)
    (stale : List String) (today : MDate) : Judgment :=
  let dims : List (String × DimCheck) :=
    [("sofr", sofr), ("move_proxy", moveProxy), ("carry_chain", carryChain), ("hy_oas", hyOas)]
  let stressCount := (dims.filter (fun d => d.2.stress)).length
  let stressNames := (dims.filter (fun d => d.2.stress)).map (fun d => d.1)
  let minConf := cfg.min_confirmations
  let staleNote := "Data stale/missing for: " ++ String.intercalate ", " stale
  let rce : String × String × String × String :=
    if netLiq.weakening ∧ minConf ≤ stressCount then
      let confidence := if stale = [] then "high" else "medium"
      let explanation := "净流动性走弱 (" ++ netLiq.detail ++ ")，且 "
        ++ toString stressCount ++ " 个确认维度同步走弱 ("
        ++ String.intercalate ", " stressNames ++ ")"
      if risk.confirming_weakness then ("TIGHTENING", "明显趋紧", confidence, explanation)
      else ("TIGHTENING", "明显趋紧",
        (if confidence = "high" then "medium" else "low"),
        explanation ++ "。但风险资产尚未确认——前置信号已出现，市场确认不足")
    else if 0 < stressCount ∨ netLiq.weakening then
      let confidence := if stale = [] then "medium" else "low"
      let explanation :=
        if netLiq.weakening then
          "净流动性走弱 (" ++ netLiq.detail ++ ")，但确认信号不足 ("
            ++ toString stressCount ++ "/" ++ toString minConf ++ ")"
        else
          "净流动性未显著走弱，但 " ++ String.intercalate ", " stressNames
            ++ " 出现压力信号——属于局部扰动，不宜过度解读"
      ("LOCAL_DISTURBANCE", "局部扰动", confidence, explanation)
    else
      ("STABLE", "流动性平稳", (if stale = [] then "high" else "medium"),
        "净流动性与各确认维度均未触发走弱信号")
  let explanation :=
    if stale ≠ [] then rce.2.2.2 ++ "。[注意] " ++ staleNote ++ "，判断偏保守"
    else rce.2.2.2
  let confidence :=
    if stale ≠ [] ∧ rce.1 = "STABLE" then "medium" else rce.2.2.1
  { date := mdateStr today
    regime := rce.1
    regime_cn := rce.2.1
    confidence := confidence
    explanation := explanation
    net_liquidity_weakening := netLiq.weakening
    stress_count := stressCount
    stress_dimensions := stressNames
    risk_asset_confirming := risk.confirming_weakness
    data_stale := stale }

/-- `_empty_judgment` (its wall-clock date abstracted as the empty string). -/
def emptyJudgment (reason : String) : Judgment :=
  { date := ""
    regime := "UNKNOWN"
    regime_cn := "无法判断"
    confidence := "none"
    explanation := reason
    net_liquidity_weakening := false
    stress_count := 0
    stress_dimensions := []
    risk_asset_confirming := false
    data_stale := [] }

/-- `JudgmentEngine.evaluate`: empty panel short-circuits to the unknown
judgment; otherwise staleness plus the six dimension checks feed the rules. -/
def evaluate (cfg : JudgmentConfig) (panel signal : Panel)
    (dq : List (String × QualityInfo)) : Judgment :=
  match panel.dates.getLast? with
  | none => emptyJudgment "No data available"
  | some today =>
    applyRules cfg (checkNetLiquidity cfg panel signal)
      (checkSofr cfg panel signal) (checkMoveProxy cfg panel signal)
      (checkCarryChain cfg panel signal) (checkHyOas cfg panel signal)
      (checkRiskAssets cfg panel signal) (checkStaleness dq) today

/-- The number of stressed confirmation dimensions among the four candidates
(funding, rate-vol, carry chain, credit), as `_apply_rules` counts them. -/
def judgeStressCount (cfg : JudgmentConfig) (panel signal : Panel) : ℕ :=
  ([("sofr", checkSofr cfg panel signal),
    ("move_proxy", checkMoveProxy cfg panel signal),
    ("carry_chain", checkCarryChain cfg panel signal),
    ("hy_oas", checkHyOas cfg panel signal)].filter (fun d => d.2.stress)).length

/-- C1: for every configuration, non-empty panel and signal table, the engine
classifies TIGHTENING exactly when the net-liquidity dimension is weakening
and at least the configured minimum of the four confirmation dimensions
(funding/sofr, rate-vol/move_proxy, carry-chain, credit/hy_oas) are stressed;
when that joint condition fails but at least one confirmation dimension is
stressed or net liquidity is weakening, the regime is LOCAL_DISTURBANCE; and
with the default minimum of 2, a single stressed dimension is never
classified TIGHTENING. -/
theorem judge_tightening_iff (cfg : JudgmentConfig) (panel signal : Panel)
    (dq : List (String × QualityInfo)) (h : panel.dates ≠ []) :
    ((evaluate cfg panel signal dq).regime = "TIGHTENING" ↔
      ((checkNetLiquidity cfg panel signal).weakening = true ∧
        cfg.min_confirmations ≤ judgeStressCount cfg panel signal))
    ∧ (¬ ((checkNetLiquidity cfg panel signal).weakening = true ∧
          cfg.min_confirmations ≤ judgeStressCount cfg panel signal) →
        (1 ≤ judgeStressCount cfg panel signal ∨
          (checkNetLiquidity cfg panel signal).weakening = true) →
        (evaluate cfg panel signal dq).regime = "LOCAL_DISTURBANCE")
    ∧ (cfg.min_confirmations = 2 → judgeStressCount cfg panel signal ≤ 1 →
        (evaluate cfg panel signal dq).regime ≠ "TIGHTENING") := by
  obtain ⟨today, hL⟩ : ∃ d, panel.dates.getLast? = some d := by
    cases hL : panel.dates.getLast? with
    | none => exact absurd (by simpa using hL) h
    | some d => exact ⟨d, rfl⟩
  unfold evaluate
  rw [hL]
  simp only [applyRules, judgeStressCount]
  split_ifs with h1 h2 h3 <;> simp_all <;> omega

/-- A one-row panel in which net liquidity weakens (5-day change -100 below
the -50 threshold) and two confirmation dimensions are stressed: vix level 30
above 25, and the USDJPY 5-day change -3 below -2; sofr and hy_oas are
absent, and SPX has not confirmed weakness (its 5-day return is +1). -/
def jpanel : Panel :=
  ⟨[⟨2025, 9, 30⟩], [("net_liquidity", [some 6600]), ("vix", [some 30]),
    ("usdjpy", [some 150]), ("spx", [some 5000])]⟩

/-- The signal table accompanying `jpanel`. -/
def jsignal : Panel :=
  ⟨[⟨2025, 9, 30⟩], [("net_liquidity_chg_5d", [some (-100)]),
    ("usdjpy_chg_5d", [some (-3)]), ("spx_pct_5d", [some 1])]⟩

/-- Witness for C1: on `jpanel` net liquidity weakens and exactly two
confirmation dimensions are stressed, so the regime is TIGHTENING. -/
theorem judge_tightening_iff_witness :
    (evaluate defaultJudgmentConfig jpanel jsignal []).regime = "TIGHTENING" :=
  ((judge_tightening_iff defaultJudgmentConfig jpanel jsignal [] (by decide)).1).2
    ⟨by decide, by decide⟩

/-- The empty panel (no rows, no columns). -/
def emptyPanel : Panel := ⟨[], []⟩

/-- A quality report with one missing indicator. -/
def cdq : List (String × QualityInfo) := [("sofr", { status := "missing" })]

/-- C3 counterexample: on an empty panel with a stale quality report the
claim's antecedent holds (an indicator has status missing), yet the returned
confidence is "none" — neither "medium" nor "low", so it is not capped at
"medium" — and the explanation "No data available" carries no staleness
annotation. -/
theorem judge_staleness_cex :
    checkStaleness cdq ≠ [] ∧
    ¬ ((evaluate defaultJudgmentConfig emptyPanel emptyPanel cdq).confidence = "medium" ∨
       (evaluate defaultJudgmentConfig emptyPanel emptyPanel cdq).confidence = "low") ∧
    (evaluate defaultJudgmentConfig emptyPanel emptyPanel cdq).explanation
      = "No data available" := by
  refine ⟨by decide, by decide, by decide⟩

/-- C3 amended: for every evaluation over a NON-EMPTY panel in which the
quality report flags at least one indicator (status missing or degraded, or
more than 3 trailing stale days), the confidence is capped at "medium" (it
is "medium" or "low", never "high", for every regime including STABLE), the
explanation is annotated with the list of stale indicators, and that list is
returned in the judgment.  (On an empty panel the engine short-circuits to
the UNKNOWN judgment with confidence "none" and no annotation, which is what
the counterexample exhibits.) -/
theorem judge_staleness_caps (cfg : JudgmentConfig) (panel signal : Panel)
    (dq : List (String × QualityInfo)) (h : panel.dates ≠ [])
    (hs : checkStaleness dq ≠ []) :
    ((evaluate cfg panel signal dq).confidence = "medium" ∨
      (evaluate cfg panel signal dq).confidence = "low")
    ∧ (∃ pre, (evaluate cfg panel signal dq).explanation =
        pre ++ "。[注意] " ++ ("Data stale/missing for: "
          ++ String.intercalate ", " (checkStaleness dq)) ++ "，判断偏保守")
    ∧ (evaluate cfg panel signal dq).data_stale = checkStaleness dq := by
  obtain ⟨today, hL⟩ : ∃ d, panel.dates.getLast? = some d := by
    cases hL : panel.dates.getLast? with
    | none => exact absurd (by simpa using hL) h
    | some d => exact ⟨d, rfl⟩
  have hsF : (checkStaleness dq = []) = False := eq_false hs
  unfold evaluate
  rw [hL]
  simp only [applyRules, hsF, if_false, ne_eq, not_false_eq_true, if_true, true_and]
  split_ifs
  all_goals refine ⟨?_, ⟨_, rfl⟩, ?_⟩
  all_goals first | exact Or.inl rfl | exact Or.inr rfl | rfl | trivial

/-- Witness for the amended C3: on the non-empty `jpanel` with the stale
report `cdq` the confidence is capped and the explanation annotated. -/
theorem judge_staleness_caps_witness :
    ((evaluate defaultJudgmentConfig jpanel jsignal cdq).confidence = "medium" ∨
      (evaluate defaultJudgmentConfig jpanel jsignal cdq).confidence = "low")
    ∧ (∃ pre, (evaluate defaultJudgmentConfig jpanel jsignal cdq).explanation =
        pre ++ "。[注意] " ++ ("Data stale/missing for: "
          ++ String.intercalate ", " (checkStaleness cdq)) ++ "，判断偏保守")
    ∧ (evaluate defaultJudgmentConfig jpanel jsignal cdq).data_stale
        = checkStaleness cdq :=
  judge_staleness_caps defaultJudgmentConfig jpanel jsignal cdq (by decide) (by decide)

/-- Extracting a middle factor of a concatenation that continues after it. -/
theorem append_extract2 (a b c d : String) :
    ∃ pre post, ((a ++ (b ++ c)) ++ d) = pre ++ c ++ post :=
  ⟨a ++ b, d, by simp [String.append_assoc]⟩

/-- Extracting the trailing factor of a concatenation. -/
theorem append_extract1 (a b c : String) :
    ∃ pre post, (a ++ (b ++ c)) = pre ++ c ++ post :=
  ⟨a ++ b, "", by simp [String.append_assoc]⟩

/-- C4: whenever the tightening rule fires (net liquidity weakening, enough
stressed confirmation dimensions) but risk assets have not confirmed
weakness (SPX 5-day return absent or not below its threshold), the
explanation states that the leading signal has appeared but market
confirmation is insufficient, and the confidence is downgraded one level:
"medium" without stale data, "low" with it. -/
theorem judge_risk_unconfirmed (cfg : JudgmentConfig) (panel signal : Panel)
    (dq : List (String × QualityInfo)) (h : panel.dates ≠ [])
    (hw : (checkNetLiquidity cfg panel signal).weakening = true)
    (hc : cfg.min_confirmations ≤ judgeStressCount cfg panel signal)
    (hr : (checkRiskAssets cfg panel signal).confirming_weakness = false) :
    (evaluate cfg panel signal dq).regime = "TIGHTENING"
    ∧ (∃ pre post, (evaluate cfg panel signal dq).explanation =
        pre ++ "前置信号已出现，市场确认不足" ++ post)
    ∧ (evaluate cfg panel signal dq).confidence =
        (if checkStaleness dq = [] then "medium" else "low") := by
  obtain ⟨today, hL⟩ : ∃ d, panel.dates.getLast? = some d := by
    cases hL : panel.dates.getLast? with
    | none => exact absurd (by simpa using hL) h
    | some d => exact ⟨d, rfl⟩
  have hsplit : ("。但风险资产尚未确认——前置信号已出现，市场确认不足" : String)
      = "。但风险资产尚未确认——" ++ "前置信号已出现，市场确认不足" := by decide
  unfold judgeStressCount at hc
  unfold evaluate
  rw [hL]
  simp only [applyRules]
  rw [if_pos (⟨hw, hc⟩ :
    (checkNetLiquidity cfg panel signal).weakening = true ∧ _), if_neg (by simp [hr])]
  by_cases hstale : checkStaleness dq = []
  · refine ⟨by simp [hstale], ?_, by simp [hstale]⟩
    simp only [hstale, ne_eq, not_true_eq_false, if_false, if_true]
    rw [hsplit]
    exact append_extract1 _ _ _
  · refine ⟨by simp [hstale], ?_, by simp [hstale]⟩
    simp only [hstale, ne_eq, not_false_eq_true, if_true, if_false]
    rw [hsplit, String.append_assoc, String.append_assoc]
    exact append_extract2 _ _ _ _

/-- Witness for C4: on `jpanel` the tightening rule fires while SPX has not
confirmed (its 5-day return is +1), so the regime is TIGHTENING with the
market-confirmation caveat and confidence downgraded to "medium". -/
theorem judge_risk_unconfirmed_witness :
    (evaluate defaultJudgmentConfig jpanel jsignal []).regime = "TIGHTENING"
    ∧ (∃ pre post, (evaluate defaultJudgmentConfig jpanel jsignal []).explanation =
        pre ++ "前置信号已出现，市场确认不足" ++ post)
    ∧ (evaluate defaultJudgmentConfig jpanel jsignal []).confidence =
        (if checkStaleness [] = [] then "medium" else "low") :=
  judge_risk_unconfirmed defaultJudgmentConfig jpanel jsignal []
    (by decide) (by decide) (by decide) (by decide)

/-- C10: when the panel lacks a move_proxy column the rate-volatility check
runs on the vix column with the same rule — it is marked available whenever
vix is present, and (when vix has a latest valid level) stress holds exactly
when that level exceeds the configured threshold or the vix z-score read
from the signal table exceeds 1 — and it reports unavailable with detail
"data missing" only when both columns are absent. -/
theorem moveproxy_vix_fallback (cfg : JudgmentConfig) (panel signal : Panel)
    (hm : panel.hasCol "move_proxy" = false) :
    (panel.hasCol "vix" = true →
      (checkMoveProxy cfg panel signal).available = true ∧
      (∀ v, lastValid (panel.get? "vix") = some v →
        (checkMoveProxy cfg panel signal).stress =
          (decide (cfg.vix_stress_threshold < v)
            || optGT (lastValid (signal.get? "vix_zscore")) 1)))
    ∧ (panel.hasCol "vix" = false →
        checkMoveProxy cfg panel signal = { detail := "data missing" }) := by
  constructor
  · intro hv
    refine ⟨?_, ?_⟩
    · cases hlv : lastValid (panel.get? "vix") with
      | none => simp [checkMoveProxy, hm, hv, hlv]
      | some v => simp [checkMoveProxy, hm, hv, hlv]
    · intro v hlv
      simp [checkMoveProxy, hm, hv, hlv]
  · intro hv
    simp [checkMoveProxy, hm, hv]

/-- Witness for C10: `jpanel` has a vix column and no move_proxy column, so
the check runs on vix and is available. -/
theorem moveproxy_vix_fallback_witness :
    (jpanel.hasCol "vix" = true →
      (checkMoveProxy defaultJudgmentConfig jpanel jsignal).available = true ∧
      (∀ v, lastValid (jpanel.get? "vix") = some v →
        (checkMoveProxy defaultJudgmentConfig jpanel jsignal).stress =
          (decide (defaultJudgmentConfig.vix_stress_threshold < v)
            || optGT (lastValid (jsignal.get? "vix_zscore")) 1)))
    ∧ (jpanel.hasCol "vix" = false →
        checkMoveProxy defaultJudgmentConfig jpanel jsignal = { detail := "data missing" }) :=
  moveproxy_vix_fallback defaultJudgmentConfig jpanel jsignal (by decide)

/-!
Composite Scorer (`src/scorer.py`, `MacroScorer`).

`_score_indicator` is embedded compositionally: the percentile, trend and
z-score sub-scores are separate definitions (each matching one block of the
method), combined by `scoreRaw` with the 0.40/0.35/0.25 weights, clamped to
[0,100], labelled, and rounded to one decimal.  The Gaussian CDF the source
takes from `math.erf` is defined here by its integral.  The caller
(`compute`) guarantees every series passed in is non-empty (at least 30
valid observations); on `[]` the embedding uses junk value 0 where Python
would raise.  `compute`'s `latest = panel.iloc[-1]` row (read only by the
advice text, which is not embedded) likewise assumes a non-empty panel.  `round` in Lean rounds half up where Python rounds half to
even; no claim depends on exact half-tie rounding.  The tier/advice/outlook
derivations of `compute` are not embedded: no claim concerns them.
-/

/-- The fixed indicator weight table (sums to 1). -/
def INDICATOR_WEIGHTS : List (String × ℚ) :=
  [("net_liquidity", mkRat 25 100), ("vix", mkRat 15 100), ("hy_oas", mkRat 15 100),
   ("sofr", mkRat 10 100), ("dxy", mkRat 10 100), ("carry_spread_bps", mkRat 10 100),
   ("curve_slope_bps", mkRat 8 100), ("on_rrp", mkRat 7 100)]

/-- The fixed direction table: +1 when higher values are bullish. -/
def INDICATOR_DIRECTION : List (String × ℤ) :=
  [("net_liquidity", 1), ("vix", -1), ("hy_oas", -1), ("sofr", -1),
   ("dxy", -1), ("carry_spread_bps", 1), ("curve_slope_bps", 1), ("on_rrp", -1)]

/-- `INDICATOR_DIRECTION.get(name, +1)`. -/
def dirOf (name : String) : ℤ :=
  ((INDICATOR_DIRECTION.find? (fun kv => kv.1 == name)).map (fun kv => kv.2)).getD 1

/-- The error function `math.erf`, defined by its integral. -/
noncomputable def erf (x : ℝ) : ℝ :=
  (2 / Real.sqrt Real.pi) * ∫ t in (0:ℝ)..x, Real.exp (-(t ^ 2))

/-- `erf 0 = 0`. -/
theorem erf_zero : erf 0 = 0 := by
  simp [erf, intervalIntegral.integral_same]

/-- The error function is odd. -/
theorem erf_neg (x : ℝ) : erf (-x) = - erf x := by
  unfold erf
  have h : (∫ t in (0:ℝ)..(-x), Real.exp (-(t ^ 2)))
      = - ∫ t in (0:ℝ)..x, Real.exp (-(t ^ 2)) := by
    have hc := intervalIntegral.integral_comp_neg (a := (0:ℝ)) (b := x)
      (f := fun t => Real.exp (-(t ^ 2)))
    simp only [neg_sq, neg_zero] at hc
    rw [intervalIntegral.integral_symm (-x) 0, ← hc]
  rw [h]
  ring

/-- The standard normal CDF as the source computes it:
`0.5 * (1 + erf(z / sqrt(2)))`. -/
noncomputable def zCdf (z : ℝ) : ℝ :=
  0.5 * (1 + erf (z / Real.sqrt 2))

/-- Reflection identity of the normal CDF. -/
theorem zCdf_neg (z : ℝ) : zCdf (-z) = 1 - zCdf z := by
  simp only [zCdf, neg_div, erf_neg]
  ring

/-- `series.iloc[-1]` of a non-empty valid series (junk 0 on `[]`). -/
def currentOf (s : List ℚ) : ℚ :=
  s.getLastD 0

/-- `series.diff(w).dropna()` of an all-valid series. -/
def diffList (w : ℕ) (s : List ℚ) : List ℚ :=
  List.zipWith (fun a b => a - b) (s.drop w) s

/-- `series.diff(w).iloc[-1] if len(series) > w else 0`. -/
def chgOf (w : ℕ) (s : List ℚ) : ℚ :=
  if w < s.length then (diffList w s).getLastD 0 else 0

/-- `(hist < chg).sum() / len(hist) * 100 if len(hist) > 0 else 50`: the
percentile of a change within its historical distribution. -/
def trendPct (hist : List ℚ) (chg : ℚ) : ℚ :=
  if hist.length = 0 then 50
  else (hist.countP (fun y => decide (y < chg)) : ℚ) / hist.length * 100

/-- Percentile of the current level within its own full history:
`(series < current).sum() / len(series) * 100`. -/
def pctileOf (s : List ℚ) : ℚ :=
  (s.countP (fun y => decide (y < currentOf s)) : ℚ) / s.length * 100

/-- The percentile sub-score: flipped for bearish-direction indicators. -/
def pctileScoreOf (d : ℤ) (s : List ℚ) : ℚ :=
  if d = 1 then pctileOf s else 100 - pctileOf s

/-- The trend sub-score: 5-day change percentile weighted 0.6 blended with
the 20-day change percentile weighted 0.4, flipped for bearish direction. -/
def trendScoreOf (d : ℤ) (s : List ℚ) : ℚ :=
  if d = 1 then
    trendPct (diffList 5 s) (chgOf 5 s) * 0.6 + trendPct (diffList 20 s) (chgOf 20 s) * 0.4
  else
    (100 - trendPct (diffList 5 s) (chgOf 5 s)) * 0.6
      + (100 - trendPct (diffList 20 s) (chgOf 20 s)) * 0.4

/-- The z-score sub-score: the normal CDF scaled to [0,100], flipped for
bearish direction. -/
noncomputable def zscoreScoreOf (d : ℤ) (z : ℝ) : ℝ :=
  if d = 1 then zCdf z * 100 else (1 - zCdf z) * 100

/-- The pre-clamping per-indicator score:
`pctile_score * 0.40 + trend_score * 0.35 + zscore_score * 0.25`. -/
noncomputable def scoreRaw (d : ℤ) (s : List ℚ) (z : ℝ) : ℝ :=
  ((pctileScoreOf d s : ℚ) : ℝ) * 0.40 + ((trendScoreOf d s : ℚ) : ℝ) * 0.35
    + zscoreScoreOf d z * 0.25

/-- `round(x, 1)`. -/
noncomputable def round1R (x : ℝ) : ℝ :=
  ((round (10 * x) : ℤ) : ℝ) / 10

/-- The per-indicator record `_score_indicator` returns (colour strings and
Chinese labels omitted). -/
structure ScoreInfo where
  score : ℝ
  signal : String
  percentile : ℚ
  chg_5d : ℚ
  chg_20d : ℚ
  direction : ℤ
  pctile_score : ℚ
  trend_score : ℚ
  zscore_score : ℝ

/-- The body of `_score_indicator` once the direction and the z-score input
are resolved: sub-scores, weighted combination, clamp, signal label,
rounding. -/
noncomputable def scoreIndicatorCore (d : ℤ) (s : List ℚ) (z : ℝ) : ScoreInfo :=
  let score := max 0 (min 100 (scoreRaw d s z))
  let signal :=
    if 70 ≤ score then "BULLISH"
    else if 55 ≤ score then "MILD_BULL"
    else if 45 ≤ score then "NEUTRAL"
    else if 30 ≤ score then "MILD_BEAR"
    else "BEARISH"
  { score := round1R score
    signal := signal
    percentile := pctileOf s
    chg_5d := chgOf 5 s
    chg_20d := chgOf 20 s
    direction := d
    pctile_score := pctileScoreOf d s
    trend_score := trendScoreOf d s
    zscore_score := zscoreScoreOf d z }

/-- The z-score `_score_indicator` works with: the last valid value of the
signal table's `<name>_zscore` column when that column exists (0 when it is
all NaN), else the fallback rolling-60 computation over the series itself
(0 below 60 samples or at zero standard deviation). -/
noncomputable def resolveZ (name : String) (signal : Panel) (s : List ℚ) : ℝ :=
  match signal.get? (name ++ "_zscore") with
  | some col =>
    match (valids col).getLast? with
    | some q => (q : ℝ)
    | none => 0
  | none =>
    if s.length < 60 then 0
    else
      let last60 := s.drop (s.length - 60)
      let std := qstd last60
      if 0 < std then (((currentOf s : ℚ) : ℝ) - ((qmean last60 : ℚ) : ℝ)) / std else 0

/-- `_score_indicator`. -/
noncomputable def scoreIndicator (name : String) (s : List ℚ) (signal : Panel) : ScoreInfo :=
  scoreIndicatorCore (dirOf name) s (resolveZ name signal s)

/-- Whether an indicator enters the composite: its column exists and has at
least 30 valid observations. -/
def qualifies (panel : Panel) (name : String) : Bool :=
  match panel.get? name with
  | some col => decide (30 ≤ (valids col).length)
  | none => false

/-- The accumulation loop of `MacroScorer.compute`: one entry
(name, weight, score record) per indicator of the weight table that is
present with at least 30 valid observations. -/
noncomputable def scoreEntries (panel signal : Panel) : List (String × ℚ × ScoreInfo) :=
  INDICATOR_WEIGHTS.filterMap (fun iw =>
    match panel.get? iw.1 with
    | none => none
    | some col =>
      if (valids col).length < 30 then none
      else some (iw.1, iw.2, scoreIndicator iw.1 (valids col) signal))

/-- `MacroScorer.compute`'s composite score: the weighted sum of rounded
per-indicator scores divided by the total weight of included indicators
(50 when none qualifies), clamped to [0,100]. -/
noncomputable def compositeScore (panel signal : Panel) : ℝ :=
  let entries := scoreEntries panel signal
  let weightedSum : ℝ := (entries.map (fun e => e.2.2.score * ((e.2.1 : ℚ) : ℝ))).sum
  let totalWeight : ℚ := (entries.map (fun e => e.2.1)).sum
  max 0 (min 100 (if totalWeight = 0 then 50 else weightedSum / ((totalWeight : ℚ) : ℝ)))

/-- Fraction of a list's entries equal to a given value (0 on `[]`). -/
def tieFrac (l : List ℚ) (x : ℚ) : ℚ :=
  if l.length = 0 then 0 else (l.countP (fun y => decide (y = x)) : ℚ) / l.length

/-- The exact amount by which negating a series while flipping the direction
shifts the pre-clamping per-indicator score: the strictly-below counts of
the percentile and trend sub-scores become weakly-below counts, adding the
tie mass at the current value and at the current 5- and 20-day changes
(weighted 0.40 and 0.35 x 0.6/0.4 as in the score). -/
def tieShift (s : List ℚ) : ℚ :=
  100 * (0.40 * tieFrac s (currentOf s)
    + 0.35 * (0.6 * tieFrac (diffList 5 s) (chgOf 5 s)
      + 0.4 * tieFrac (diffList 20 s) (chgOf 20 s)))

/-- Negating a list turns strictly-below counts into strictly-above counts. -/
theorem countP_lt_map_neg (l : List ℚ) (c : ℚ) :
    (l.map (fun x => -x)).countP (fun y => decide (y < -c)) =
      l.countP (fun y => decide (c < y)) := by
  rw [List.countP_map]
  exact List.countP_congr (fun a _ => by simp)

/-- Negating a list preserves tie counts. -/
theorem countP_eq_map_neg (l : List ℚ) (c : ℚ) :
    (l.map (fun x => -x)).countP (fun y => decide (y = -c)) =
      l.countP (fun y => decide (y = c)) := by
  rw [List.countP_map]
  exact List.countP_congr (fun a _ => by simp)

/-- Strictly-above and weakly-below counts partition a list. -/
theorem countP_gt_add_le (l : List ℚ) (c : ℚ) :
    l.countP (fun y => decide (c < y)) + l.countP (fun y => decide (y ≤ c)) = l.length := by
  have h := List.length_eq_countP_add_countP (fun y => decide (c < y)) l
  have h2 : l.countP (fun a => decide ¬ (decide (c < a) = true)) =
      l.countP (fun y => decide (y ≤ c)) :=
    List.countP_congr (fun a _ => by simp [not_lt])
  omega

/-- The last element of a negated list is the negated last element. -/
theorem getLastD_map_neg (l : List ℚ) (d : ℚ) :
    (l.map (fun x => -x)).getLastD (-d) = -(l.getLastD d) := by
  induction l generalizing d with
  | nil => simp
  | cons a tl ih =>
    rw [List.map_cons, List.getLastD_cons, List.getLastD_cons]
    exact ih a

/-- Pairwise differences of negated lists are the negated differences. -/
theorem zipWith_sub_map_neg (a b : List ℚ) :
    List.zipWith (fun x y => x - y) (a.map (fun x => -x)) (b.map (fun x => -x)) =
      (List.zipWith (fun x y => x - y) a b).map (fun x => -x) := by
  induction a generalizing b with
  | nil => simp
  | cons x tl ih =>
    cases b with
    | nil => simp
    | cons y tb => simp [ih tb]; ring

/-- The w-day differences of a negated series are the negated differences. -/
theorem diffList_map_neg (w : ℕ) (s : List ℚ) :
    diffList w (s.map (fun x => -x)) = (diffList w s).map (fun x => -x) := by
  unfold diffList
  rw [← List.map_drop, zipWith_sub_map_neg]

/-- The current level of a negated series is negated. -/
theorem currentOf_map_neg (s : List ℚ) :
    currentOf (s.map (fun x => -x)) = - currentOf s := by
  have h := getLastD_map_neg s 0
  simpa [currentOf] using h

/-- The latest w-day change of a negated series is negated. -/
theorem chgOf_map_neg (w : ℕ) (s : List ℚ) :
    chgOf w (s.map (fun x => -x)) = - chgOf w s := by
  unfold chgOf
  rw [List.length_map, diffList_map_neg]
  split_ifs with h
  · have := getLastD_map_neg (diffList w s) 0
    simpa using this
  · simp

/-- Negating a non-empty series reflects its own-history percentile, up to
the tie mass at the current value (the current value always ties itself). -/
theorem pctileOf_map_neg (s : List ℚ) (hs : s ≠ []) :
    pctileOf (s.map (fun x => -x)) = 100 - pctileOf s - 100 * tieFrac s (currentOf s) := by
  have hlen : s.length ≠ 0 := by simpa using hs
  have hn : (s.length : ℚ) ≠ 0 := Nat.cast_ne_zero.2 hlen
  unfold pctileOf tieFrac
  rw [currentOf_map_neg, List.length_map, countP_lt_map_neg, if_neg hlen]
  have hsplit := countP_le_split s (currentOf s)
  have hgt := countP_gt_add_le s (currentOf s)
  have hq : (s.countP (fun y => decide (currentOf s < y)) : ℚ) =
      (s.length : ℚ) - s.countP (fun y => decide (y < currentOf s))
        - s.countP (fun y => decide (y = currentOf s)) := by
    push_cast [← hgt, hsplit]
    ring
  rw [hq]
  field_simp
  ring

/-- Negating a change history reflects the trend percentile up to the tie
mass at the change value (both sides are 50 on an empty history). -/
theorem trendPct_map_neg (h : List ℚ) (c : ℚ) :
    trendPct (h.map (fun x => -x)) (-c) = 100 - trendPct h c - 100 * tieFrac h c := by
  unfold trendPct tieFrac
  rw [List.length_map, countP_lt_map_neg]
  by_cases hl : h.length = 0
  · simp [hl]
    norm_num
  · rw [if_neg hl, if_neg hl, if_neg hl]
    have hn : (h.length : ℚ) ≠ 0 := Nat.cast_ne_zero.2 hl
    have hsplit := countP_le_split h c
    have hgt := countP_gt_add_le h c
    have hq : (h.countP (fun y => decide (c < y)) : ℚ) =
        (h.length : ℚ) - h.countP (fun y => decide (y < c))
          - h.countP (fun y => decide (y = c)) := by
      push_cast [← hgt, hsplit]
      ring
    rw [hq]
    field_simp
    ring

/-- C7 amended: flipping the direction classification while negating a
non-empty series does NOT leave the pre-clamping per-indicator score
unchanged: it shifts it by exactly direction x `tieShift` — the tie mass the
strictly-below percentile and trend counts gain when reflected, which is
strictly positive because the current value always ties with itself.  Only
the z-score sub-score is exactly direction-symmetric. -/
theorem score_direction_shift (d : ℤ) (hd : d = 1 ∨ d = -1) (s : List ℚ)
    (hs : s ≠ []) (z : ℝ) :
    scoreRaw (-d) (s.map (fun x => -x)) (-z)
      = scoreRaw d s z + (d : ℝ) * ((tieShift s : ℚ) : ℝ)
    ∧ zscoreScoreOf (-d) (-z) = zscoreScoreOf d z := by
  have hz : zscoreScoreOf (-d) (-z) = zscoreScoreOf d z := by
    rcases hd with rfl | rfl
    · norm_num [zscoreScoreOf, zCdf_neg]
    · norm_num [zscoreScoreOf, zCdf_neg]
  refine ⟨?_, hz⟩
  have hp : pctileScoreOf (-d) (s.map (fun x => -x))
      = pctileScoreOf d s + (d : ℚ) * (100 * tieFrac s (currentOf s)) := by
    rcases hd with rfl | rfl
    · norm_num [pctileScoreOf, pctileOf_map_neg s hs]
      ring
    · norm_num [pctileScoreOf, pctileOf_map_neg s hs]
      ring
  have ht : trendScoreOf (-d) (s.map (fun x => -x))
      = trendScoreOf d s + (d : ℚ) * (100 * (0.6 * tieFrac (diffList 5 s) (chgOf 5 s)
          + 0.4 * tieFrac (diffList 20 s) (chgOf 20 s))) := by
    rcases hd with rfl | rfl
    · norm_num [trendScoreOf, diffList_map_neg, chgOf_map_neg, trendPct_map_neg]
      ring
    · norm_num [trendScoreOf, diffList_map_neg, chgOf_map_neg, trendPct_map_neg]
      ring
  unfold scoreRaw tieShift
  rw [hp, ht, hz]
  push_cast
  ring

/-- Witness for the amended C7 at direction +1, series [1, 2], z-score 0. -/
theorem score_direction_shift_witness :
    scoreRaw (-1) ([(1:ℚ), 2].map (fun x => -x)) (-0)
      = scoreRaw 1 [(1:ℚ), 2] 0 + ((1 : ℤ) : ℝ) * ((tieShift [(1:ℚ), 2] : ℚ) : ℝ)
    ∧ zscoreScoreOf (-1) (-0) = zscoreScoreOf 1 0 :=
  score_direction_shift 1 (Or.inl rfl) [(1:ℚ), 2] (by decide) 0

/-- C7 counterexample: on the two-point series [1, 2] with z-score input 0
(so the z-score sub-scores agree at 50 on both sides), the original
per-indicator score is 50 but the direction-flipped score of the negated
series is 70 — the score is not invariant, because the percentile of the
current value moves from "fraction strictly below" (1/2) to "fraction
weakly below" (1) when the series is negated. -/
theorem score_direction_symmetry_cex :
    (scoreIndicatorCore 1 [1, 2] 0).score ≠ (scoreIndicatorCore (-1) [-1, -2] (-0)).score := by
  have hp1 : pctileOf [(1:ℚ), 2] = 50 := by
    have hc : ([(1:ℚ), 2]).countP (fun y => decide (y < currentOf [(1:ℚ), 2])) = 1 := by decide
    unfold pctileOf
    rw [hc]
    norm_num
  have hp2 : pctileOf [(-1:ℚ), -2] = 0 := by
    have hc : ([(-1:ℚ), -2]).countP (fun y => decide (y < currentOf [(-1:ℚ), -2])) = 0 := by
      decide
    unfold pctileOf
    rw [hc]
    norm_num
  have ht1 : trendScoreOf 1 [(1:ℚ), 2] = 50 := by
    norm_num [trendScoreOf, trendPct, diffList, chgOf]
  have ht2 : trendScoreOf (-1) [(-1:ℚ), -2] = 50 := by
    norm_num [trendScoreOf, trendPct, diffList, chgOf]
  have hz0 : zCdf 0 = 1/2 := by
    norm_num [zCdf, erf_zero]
  have hr1 : scoreRaw 1 [1, 2] 0 = 50 := by
    norm_num [scoreRaw, pctileScoreOf, zscoreScoreOf, hp1, ht1, hz0]
  have hr2 : scoreRaw (-1) [-1, -2] (-0) = 70 := by
    norm_num [scoreRaw, pctileScoreOf, zscoreScoreOf, hp2, ht2, hz0]
  have h1 : (scoreIndicatorCore 1 [1, 2] 0).score = 50 := by
    simp only [scoreIndicatorCore, hr1]
    norm_num [round1R, min_def, max_def]
  have h2 : (scoreIndicatorCore (-1) [-1, -2] (-0)).score = 70 := by
    simp only [scoreIndicatorCore, hr2]
    norm_num [round1R, min_def, max_def]
  rw [h1, h2]
  norm_num

/-- A filterMap whose function is pointwise a guarded map is a filter
followed by a map. -/
theorem filterMap_eq_filter_map {α β : Type} (q : α → Bool) (g : α → β) (f : α → Option β)
    (hf : ∀ a, f a = if q a then some (g a) else none) (l : List α) :
    l.filterMap f = (l.filter q).map g := by
  induction l with
  | nil => simp
  | cons a tl ih =>
    rw [List.filterMap_cons]
    by_cases h : q a = true
    · rw [hf a, if_pos h, List.filter_cons_of_pos h, List.map_cons, ih]
    · rw [hf a, if_neg h, List.filter_cons_of_neg h, ih]

/-- C5: the composite score always lies in [0,100]; the entries entering it
are exactly the weight-table indicators present with at least 30 valid
observations, carrying their fixed weights (the renormalization divides by
the total weight of exactly those entries); and when no indicator qualifies
the composite is exactly 50. -/
theorem composite_score_spec (panel signal : Panel) :
    (0 ≤ compositeScore panel signal ∧ compositeScore panel signal ≤ 100)
    ∧ ((∀ iw ∈ INDICATOR_WEIGHTS, qualifies panel iw.1 = false) →
        compositeScore panel signal = 50)
    ∧ scoreEntries panel signal =
        (INDICATOR_WEIGHTS.filter (fun iw => qualifies panel iw.1)).map
          (fun iw => (iw.1, iw.2, scoreIndicator iw.1 (valids ((panel.get? iw.1).getD [])) signal))
    ∧ compositeScore panel signal = max 0 (min 100 (
        if ((scoreEntries panel signal).map (fun e => e.2.1)).sum = 0 then 50
        else ((scoreEntries panel signal).map (fun e => e.2.2.score * ((e.2.1 : ℚ) : ℝ))).sum
          / ((((scoreEntries panel signal).map (fun e => e.2.1)).sum : ℚ) : ℝ))) := by
  have hpt : ∀ iw : String × ℚ,
      (match panel.get? iw.1 with
       | none => none
       | some col =>
         if (valids col).length < 30 then none
         else some (iw.1, iw.2, scoreIndicator iw.1 (valids col) signal))
      = if qualifies panel iw.1
        then some (iw.1, iw.2, scoreIndicator iw.1 (valids ((panel.get? iw.1).getD [])) signal)
        else none := by
    intro iw
    cases h : panel.get? iw.1 with
    | none => simp [qualifies, h]
    | some col =>
      simp only [qualifies, h, Option.getD_some]
      by_cases hlen : (valids col).length < 30
      · simp [hlen, Nat.not_le.2 hlen]
      · simp [hlen, Nat.not_lt.1 hlen]
  have h3 : scoreEntries panel signal =
      (INDICATOR_WEIGHTS.filter (fun iw => qualifies panel iw.1)).map
        (fun iw => (iw.1, iw.2, scoreIndicator iw.1 (valids ((panel.get? iw.1).getD [])) signal)) := by
    unfold scoreEntries
    exact filterMap_eq_filter_map _ _ _ hpt INDICATOR_WEIGHTS
  refine ⟨⟨le_max_left _ _, max_le (by norm_num) (min_le_left _ _)⟩, ?_, h3, rfl⟩
  intro hall
  have hnil : scoreEntries panel signal = [] := by
    rw [h3]
    have hf : INDICATOR_WEIGHTS.filter (fun iw => qualifies panel iw.1) = [] := by
      rw [List.filter_eq_nil_iff]
      intro a ha
      simp [hall a ha]
    rw [hf]
    rfl
  simp only [compositeScore, hnil]
  norm_num [min_def, max_def]

/-- Witness for C5: on the non-empty one-row panel `jpanel` every present
indicator has fewer than 30 valid observations, so none qualifies and the
composite score is exactly 50. -/
theorem composite_score_spec_witness :
    compositeScore jpanel jsignal = 50 :=
  (composite_score_spec jpanel jsignal).2.1 (by decide)

/-!
Forward Analyzer (`src/forward_analyzer.py`, `ForwardAnalyzer._find_analogues`).

The candidate loop is embedded over the row indices `range(60, len-25)`;
each candidate's z-score profile is built from the trailing-61-position
window's valid values (at least 30 required per indicator), compared by
cosine similarity with the current profile (trailing 60 valid observations
per indicator, at least 60 required, at least 4 indicators).  Candidates
with similarity below 0.7 or zero norm product are dropped; the survivors
are sorted by descending stored (3-decimal-rounded) similarity with a
stable insertion sort (Python's `list.sort` is stable), deduplicated to one
per calendar month, and cut off at `top_n`.  The analogue record keeps the
loop's row index `idx` alongside the date it is rendered from, to state the
no-look-ahead bound; the AI-narrative fields are not embedded. -/

/-- The forward analyzer's direction table (`IND_DIRECTION`). -/
def IND_DIRECTION : List (String × ℤ) :=
  [("net_liquidity", 1), ("vix", -1), ("hy_oas", -1), ("sofr", -1),
   ("dxy", -1), ("carry_spread_bps", 1), ("curve_slope_bps", 1), ("on_rrp", -1)]

/-- `round(x, 3)`. -/
noncomputable def round3R (x : ℝ) : ℝ :=
  ((round (1000 * x) : ℤ) : ℝ) / 1000

/-- `round(x, 2)`. -/
noncomputable def round2R (x : ℝ) : ℝ :=
  ((round (100 * x) : ℤ) : ℝ) / 100

/-- One returned analogue. -/
structure Analog where
  idx : ℕ
  date : MDate
  similarity : ℝ
  score_then : ℝ
  spx_fwd_5d : Option ℝ
  spx_fwd_10d : Option ℝ
  spx_fwd_20d : Option ℝ
  btc_fwd_5d : Option ℝ
  btc_fwd_10d : Option ℝ
  btc_fwd_20d : Option ℝ

/-- The direction-table indicators present in the panel. -/
def fwdIndicators (p : Panel) : List String :=
  IND_DIRECTION.filterMap (fun kv => if p.hasCol kv.1 then some kv.1 else none)

/-- `current_profile`: for each present indicator with at least 60 valid
observations, the z-score of the latest valid value against the mean and
sample standard deviation of the trailing 60 valid observations (0 at zero
standard deviation). -/
noncomputable def currentProfile (p : Panel) : List (String × ℝ) :=
  (fwdIndicators p).filterMap (fun ind =>
    let series := valids ((p.get? ind).getD [])
    if series.length < 60 then none
    else
      let last60 := series.drop (series.length - 60)
      let m := qmean last60
      let s := qstd last60
      some (ind, if 0 < s then (((currentOf series : ℚ) : ℝ) - ((m : ℚ) : ℝ)) / s else 0))

/-- One entry of a historical profile: the z-score of row `i`'s value
against the valid values of positions `i-60 .. i` (at least 30 required,
else the whole candidate is dropped); a NaN row value or a zero standard
deviation contributes 0. -/
noncomputable def histEntry (p : Panel) (i : ℕ) (ind : String) : Option ℝ :=
  let col := (p.get? ind).getD []
  let hist := valids ((col.take (i + 1)).drop (i - 60))
  if hist.length < 30 then none
  else
    let m := qmean hist
    let s := qstd hist
    some (if 0 < s then
        (match col.getD i none with
         | some v => (((v : ℚ) : ℝ) - ((m : ℚ) : ℝ)) / s
         | none => 0)
      else 0)

/-- The historical z-score profile at row `i` over the common indicators;
`none` when any indicator's window has fewer than 30 valid values. -/
noncomputable def profileAt (p : Panel) (i : ℕ) : List String → Option (List ℝ)
  | [] => some []
  | ind :: rest =>
    match histEntry p i ind with
    | none => none
    | some e =>
      match profileAt p i rest with
      | none => none
      | some tl => some (e :: tl)

/-- `np.dot`. -/
noncomputable def dotR (a b : List ℝ) : ℝ :=
  (List.zipWith (fun x y => x * y) a b).sum

/-- `np.linalg.norm`. -/
noncomputable def normR (a : List ℝ) : ℝ :=
  Real.sqrt ((a.map (fun x => x ^ 2)).sum)

/-- `np.mean` of absolute values. -/
noncomputable def meanAbsR (l : List ℝ) : ℝ :=
  (l.map (fun x => |x|)).sum / l.length

/-- The realized forward return of an asset `h` trading days after row `i`,
as a rounded percentage: requires the column, a valid positive level at
`i`, and a valid level at `i + h` strictly inside the panel. -/
noncomputable def fwdRet (p : Panel) (name : String) (i h : ℕ) : Option ℝ :=
  match p.get? name with
  | none => none
  | some col =>
    match col.getD i none with
    | none => none
    | some v0 =>
      if 0 < v0 then
        if i + h < p.len then
          match col.getD (i + h) none with
          | some v1 => some (round2R ((((v1 : ℚ) : ℝ) / ((v0 : ℚ) : ℝ) - 1) * 100))
          | none => none
        else none
      else none

/-- The body of the candidate loop at row `i`: the historical profile, the
zero-norm guard, the similarity filter at 0.7, and the analogue record. -/
noncomputable def candidateAt (p : Panel) (curVec : List ℝ) (inds : List String)
    (i : ℕ) : Option Analog :=
  match profileAt p i inds with
  | none => none
  | some hv =>
    let dot := dotR curVec hv
    let nrm := normR curVec * normR hv
    if nrm = 0 then none
    else
      let sim := dot / nrm
      if sim < 0.7 then none
      else some {
        idx := i
        date := p.dates.getD i ⟨0, 0, 0⟩
        similarity := round3R sim
        score_then := round1R (meanAbsR hv * 50)
        spx_fwd_5d := fwdRet p "spx" i 5
        spx_fwd_10d := fwdRet p "spx" i 10
        spx_fwd_20d := fwdRet p "spx" i 20
        btc_fwd_5d := fwdRet p "btc" i 5
        btc_fwd_10d := fwdRet p "btc" i 10
        btc_fwd_20d := fwdRet p "btc" i 20 }

/-- Every surviving candidate of the history scan
`for i in range(60, len(panel) - 25)`. -/
noncomputable def allAnalogues (p : Panel) : List Analog :=
  if (fwdIndicators p).isEmpty ∨ p.len < 60 then []
  else if (currentProfile p).length < 4 then []
  else
    (List.range' 60 (p.len - 85)).filterMap
      (candidateAt p ((currentProfile p).map (fun kv => kv.2))
        ((currentProfile p).map (fun kv => kv.1)))

/-- The month-level deduplication key `a['date'][:7]`. -/
def monthKey (a : Analog) : ℕ × ℕ :=
  (a.date.y, a.date.m)

/-- The deduplicate-and-truncate loop over the sorted candidates: skip a
candidate whose calendar month is already used, append otherwise, and stop
as soon as `topn` analogues are kept. -/
def dedupScan (topn : ℕ) : List Analog → List (ℕ × ℕ) → List Analog → List Analog
  | [], _, acc => acc.reverse
  | a :: rest, used, acc =>
    if monthKey a ∈ used then
      if topn ≤ acc.length then acc.reverse
      else dedupScan topn rest used acc
    else
      if topn ≤ (a :: acc).length then (a :: acc).reverse
      else dedupScan topn rest (monthKey a :: used) (a :: acc)

/-- `analogues.sort(key=lambda x: -x['similarity'])`: a stable sort by
descending stored similarity. -/
noncomputable def sortBySim (l : List Analog) : List Analog :=
  List.insertionSort (fun a b => b.similarity ≤ a.similarity) l

/-- `_find_analogues`: scan, filter, sort, deduplicate, truncate. -/
noncomputable def findAnalogues (p : Panel) (topn : ℕ := 10) : List Analog :=
  dedupScan topn (sortBySim (allAnalogues p)) [] []

instance : IsTotal Analog (fun a b => b.similarity ≤ a.similarity) :=
  ⟨fun a b => le_total b.similarity a.similarity⟩

instance : IsTrans Analog (fun a b => b.similarity ≤ a.similarity) :=
  ⟨fun _ _ _ hab hbc => le_trans hbc hab⟩

/-- Every element of the scan's output was already kept, or comes from the
input list with a calendar month not yet used. -/
theorem dedupScan_mem (topn : ℕ) (l : List Analog) :
    ∀ (used : List (ℕ × ℕ)) (acc : List Analog) (a : Analog),
      a ∈ dedupScan topn l used acc → a ∈ acc ∨ (a ∈ l ∧ monthKey a ∉ used) := by
  induction l with
  | nil =>
    intro used acc a ha
    rw [dedupScan] at ha
    exact Or.inl (List.mem_reverse.1 ha)
  | cons c rest ih =>
    intro used acc a ha
    rw [dedupScan] at ha
    split_ifs at ha with hm hlen hlen2
    · exact Or.inl (List.mem_reverse.1 ha)
    · rcases ih used acc a ha with h | ⟨h1, h2⟩
      · exact Or.inl h
      · exact Or.inr ⟨List.mem_cons_of_mem _ h1, h2⟩
    · rcases List.mem_cons.1 (List.mem_reverse.1 ha) with rfl | h
      · exact Or.inr ⟨List.mem_cons_self _ _, hm⟩
      · exact Or.inl h
    · rcases ih _ _ a ha with h | ⟨h1, h2⟩
      · rcases List.mem_cons.1 h with rfl | h'
        · exact Or.inr ⟨List.mem_cons_self _ _, hm⟩
        · exact Or.inl h'
      · exact Or.inr ⟨List.mem_cons_of_mem _ h1,
          fun hh => h2 (List.mem_cons_of_mem _ hh)⟩

/-- The scan never keeps more than `topn` analogues. -/
theorem dedupScan_length (topn : ℕ) (l : List Analog) :
    ∀ (used : List (ℕ × ℕ)) (acc : List Analog), acc.length < topn →
      (dedupScan topn l used acc).length ≤ topn := by
  induction l with
  | nil =>
    intro used acc h
    rw [dedupScan]
    simp
    omega
  | cons c rest ih =>
    intro used acc h
    rw [dedupScan]
    split_ifs with hm hlen hlen2
    · simp
      omega
    · exact ih used acc h
    · simp at hlen2 ⊢
      omega
    · exact ih _ _ (by simp at hlen2 ⊢; omega)

/-- The scan keeps at most one analogue per calendar month. -/
theorem dedupScan_nodup (topn : ℕ) (l : List Analog) :
    ∀ (used : List (ℕ × ℕ)) (acc : List Analog),
      (∀ b ∈ acc, monthKey b ∈ used) → (acc.map monthKey).Nodup →
      ((dedupScan topn l used acc).map monthKey).Nodup := by
  induction l with
  | nil =>
    intro used acc _ h2
    rw [dedupScan, List.map_reverse]
    exact List.nodup_reverse.2 h2
  | cons c rest ih =>
    intro used acc h1 h2
    rw [dedupScan]
    have hkey : monthKey c ∉ used → ((c :: acc).map monthKey).Nodup := by
      intro hm
      rw [List.map_cons, List.nodup_cons]
      refine ⟨?_, h2⟩
      intro hin
      rcases List.mem_map.1 hin with ⟨b, hb, hbeq⟩
      exact hm (hbeq ▸ h1 b hb)
    split_ifs with hm hlen hlen2
    · rw [List.map_reverse]
      exact List.nodup_reverse.2 h2
    · exact ih used acc h1 h2
    · rw [List.map_reverse]
      exact List.nodup_reverse.2 (hkey hm)
    · refine ih _ _ ?_ (hkey hm)
      intro b hb
      rcases List.mem_cons.1 hb with rfl | h
      · exact List.mem_cons_self _ _
      · exact List.mem_cons_of_mem _ (h1 b h)

/-- Processing a descending-similarity list, the kept analogue of each month
has the highest similarity among the list's analogues of that month: any
same-month element is either the kept one itself or appears later in the
sorted order. -/
theorem dedupScan_max (topn : ℕ) (l : List Analog) :
    ∀ (used : List (ℕ × ℕ)) (acc : List Analog) (a b : Analog),
      List.Sorted (fun x y => y.similarity ≤ x.similarity) l →
      a ∈ dedupScan topn l used acc → a ∉ acc → b ∈ l → monthKey b = monthKey a →
      b.similarity ≤ a.similarity := by
  induction l with
  | nil =>
    intro used acc a b _ _ _ hb _
    exact absurd hb (List.not_mem_nil b)
  | cons c rest ih =>
    intro used acc a b hsort ha hna hb hmon
    have hhead := (List.sorted_cons.1 hsort).1
    have hsort' := (List.sorted_cons.1 hsort).2
    rw [dedupScan] at ha
    split_ifs at ha with hm hlen hlen2
    · exact absurd (List.mem_reverse.1 ha) hna
    · rcases List.mem_cons.1 hb with rfl | hbrest
      · rcases dedupScan_mem topn rest used acc a ha with h | ⟨_, hnm⟩
        · exact absurd h hna
        · exact absurd (hmon ▸ hm) hnm
      · exact ih used acc a b hsort' ha hna hbrest hmon
    · rcases List.mem_cons.1 (List.mem_reverse.1 ha) with rfl | hacc
      · rcases List.mem_cons.1 hb with rfl | hbrest
        · exact le_refl _
        · exact hhead b hbrest
      · exact absurd hacc hna
    · by_cases hac : a = c
      · subst hac
        rcases List.mem_cons.1 hb with rfl | hbrest
        · exact le_refl _
        · exact hhead b hbrest
      · have hna' : a ∉ c :: acc := by
          intro hh
          rcases List.mem_cons.1 hh with h | h
          · exact hac h
          · exact hna h
        rcases List.mem_cons.1 hb with rfl | hbrest
        · rcases dedupScan_mem topn rest _ _ a ha with h | ⟨_, hnm⟩
          · exact absurd h hna'
          · exact absurd (by rw [← hmon]; exact List.mem_cons_self _ _) hnm
        · exact ih _ _ a b hsort' ha hna' hbrest hmon

/-- Rounding to 3 decimals cannot drop a value below the 0.7 cutoff, because
0.7 is itself a multiple of 1/1000. -/
theorem round3R_ge (x : ℝ) (h : (0.7:ℝ) ≤ x) : (0.7:ℝ) ≤ round3R x := by
  have h1 : (700 : ℤ) ≤ round (1000 * x) := by
    rw [round_eq]
    refine Int.le_floor.2 ?_
    push_cast
    linarith
  have h2 : ((700:ℤ) : ℝ) ≤ ((round (1000 * x) : ℤ) : ℝ) := Int.cast_le.2 h1
  unfold round3R
  push_cast at h2
  linarith

/-- A surviving candidate records its row index and passed the 0.7 cosine
similarity filter (the stored, rounded similarity also clears 0.7). -/
theorem candidateAt_some (p : Panel) (curVec : List ℝ) (inds : List String) (i : ℕ)
    (a : Analog) (h : candidateAt p curVec inds i = some a) :
    a.idx = i ∧ (0.7:ℝ) ≤ a.similarity := by
  unfold candidateAt at h
  cases hp : profileAt p i inds with
  | none => rw [hp] at h; exact absurd h (by simp)
  | some hv =>
    rw [hp] at h
    by_cases hn : normR curVec * normR hv = 0
    · simp [hn] at h
    · simp only [if_neg hn] at h
      by_cases hs : dotR curVec hv / (normR curVec * normR hv) < 0.7
      · simp [hs] at h
      · simp only [if_neg hs] at h
        rw [← Option.some_inj.1 h]
        exact ⟨rfl, round3R_ge _ (not_lt.1 hs)⟩

/-- Every candidate of the history scan sits at a row index in
[60, len - 26] and clears the similarity cutoff. -/
theorem mem_allAnalogues (p : Panel) (a : Analog) (h : a ∈ allAnalogues p) :
    60 ≤ a.idx ∧ a.idx + 26 ≤ p.len ∧ (0.7:ℝ) ≤ a.similarity := by
  unfold allAnalogues at h
  split_ifs at h with h1 h2
  · exact absurd h (List.not_mem_nil a)
  · exact absurd h (List.not_mem_nil a)
  · obtain ⟨i, hir, hc⟩ := List.mem_filterMap.1 h
    have hb := List.mem_range'_1.1 hir
    obtain ⟨hidx, hsim⟩ := candidateAt_some _ _ _ _ _ hc
    subst hidx
    exact ⟨by omega, by omega, hsim⟩

/-- C2: every analogue the forward analyzer returns has (stored cosine)
similarity at least 0.7 and sits at a row index in [60, n - 26] of an n-row
panel — never in the first 60 rows nor the last 25, so no look-ahead
leakage; the returned list holds at most one analogue per calendar month,
each with the highest similarity among all candidates of its month; and at
most 10 analogues are returned. -/
theorem find_analogues_spec (p : Panel) :
    (∀ a ∈ findAnalogues p, (0.7:ℝ) ≤ a.similarity ∧ 60 ≤ a.idx ∧ a.idx + 26 ≤ p.len)
    ∧ ((findAnalogues p).map monthKey).Nodup
    ∧ (findAnalogues p).length ≤ 10
    ∧ (∀ a ∈ findAnalogues p, ∀ b ∈ allAnalogues p,
        monthKey b = monthKey a → b.similarity ≤ a.similarity) := by
  have hperm := List.perm_insertionSort
    (fun a b : Analog => b.similarity ≤ a.similarity) (allAnalogues p)
  have hsort := List.sorted_insertionSort
    (fun a b : Analog => b.similarity ≤ a.similarity) (allAnalogues p)
  have hmemall : ∀ a, a ∈ findAnalogues p → a ∈ allAnalogues p := by
    intro a ha
    unfold findAnalogues at ha
    rcases dedupScan_mem 10 _ _ _ a ha with h | ⟨h, _⟩
    · exact absurd h (List.not_mem_nil a)
    · exact hperm.subset h
  refine ⟨?_, ?_, ?_, ?_⟩
  · intro a ha
    obtain ⟨h60, h26, hsim⟩ := mem_allAnalogues p a (hmemall a ha)
    exact ⟨hsim, h60, h26⟩
  · unfold findAnalogues
    exact dedupScan_nodup 10 _ [] []
      (fun b hb => absurd hb (List.not_mem_nil b)) (by simp)
  · unfold findAnalogues
    exact dedupScan_length 10 _ [] [] (by simp)
  · intro a ha b hb hmon
    unfold findAnalogues at ha
    exact dedupScan_max 10 _ [] [] a b hsort ha (List.not_mem_nil a)
      (hperm.mem_iff.2 hb) hmon
